import Mathlib

/-!
Shallow embedding of the college-predictor frontend pieces under verification:
the markdown table parser (`tableParser.ts`), the interactive table renderer
logic (`TableMessage.tsx`), the chat streaming reducer (`AIChat.tsx` message
handler) and the WebSocket reconnect policy (`chatService.ts`).

JavaScript strings are modelled as Lean `String`, with the string operations
re-implemented over the underlying character lists (structurally recursive,
ASCII-faithful) so that every definition evaluates inside the kernel.
JavaScript numbers are modelled as `ℚ`: the claims under verification depend
only on ordering and on which strings parse as numbers, never on IEEE-754
rounding.  JavaScript objects with string keys are modelled as association
lists built with update-in-place-or-append semantics (`objInsert`), matching
property insertion order.
-/

namespace CollegePredictor

/-! ## JavaScript string primitives -/

/-- The whitespace class of the JavaScript `\s` regex character class and of
`String.prototype.trim`, restricted to the ASCII range actually exercised by
this application. -/
def isJsWhitespace (c : Char) : Bool :=
  c = ' ' || c = '\t' || c = '\n' || c = '\r' || c = '\x0b' || c = '\x0c'

/-- Character-list core of `String.prototype.trim`. -/
def trimChars (cs : List Char) : List Char :=
  ((cs.dropWhile isJsWhitespace).reverse.dropWhile isJsWhitespace).reverse

/-- JavaScript `s.trim()`. -/
def jsTrim (s : String) : String := ⟨trimChars s.data⟩

/-- ASCII lower-casing of one character, the fragment of JavaScript
`toLowerCase` this application exercises. -/
def asciiToLower (c : Char) : Char :=
  if 'A' ≤ c && c ≤ 'Z' then Char.ofNat (c.toNat + 32) else c

/-- JavaScript `s.toLowerCase()` (ASCII fragment). -/
def jsToLower (s : String) : String := ⟨s.data.map asciiToLower⟩

/-- JavaScript `s.startsWith(pre)`. -/
def jsStartsWith (s pre : String) : Bool := pre.data.isPrefixOf s.data

/-- Character-list core of `String.prototype.split` with a single-character
separator: splits at every occurrence of the separator, keeping empty pieces. -/
def jsSplitCharAux (sep : Char) : List Char → List (List Char)
  | [] => [[]]
  | c :: cs =>
    if c = sep then [] :: jsSplitCharAux sep cs
    else
      match jsSplitCharAux sep cs with
      | [] => [[c]]
      | l :: ls => (c :: l) :: ls

/-- JavaScript `s.split(sep)` for a one-character separator string. -/
def jsSplit (s : String) (sep : Char) : List String :=
  (jsSplitCharAux sep s.data).map String.mk

/-- JavaScript `Array.prototype.join(sep)`. -/
def jsJoin (sep : String) : List String → String
  | [] => ""
  | [x] => x
  | x :: xs => x ++ sep ++ jsJoin sep xs

/-- JavaScript `String.prototype.includes`: `sub` occurs as a contiguous
substring of `s`. -/
def jsIncludes (s sub : String) : Bool :=
  (List.range (s.data.length + 1)).any fun i => sub.data.isPrefixOf (s.data.drop i)

/-- Numeric value of a run of decimal digits. -/
def digitsToNat : List Char → Nat :=
  List.foldl (fun n c => 10 * n + (c.toNat - '0'.toNat)) 0

/-- Digits of an optionally signed exponent, as in `parseFloat`'s
`e`/`E` `[+-]? digits` suffix. -/
def parseExponentSigned : List Char → Int
  | '+' :: rest => Int.ofNat (digitsToNat (rest.takeWhile Char.isDigit))
  | '-' :: rest => -Int.ofNat (digitsToNat (rest.takeWhile Char.isDigit))
  | rest => Int.ofNat (digitsToNat (rest.takeWhile Char.isDigit))

/-- Parse an optional exponent suffix at the head of the input; when the
digits are missing the exponent is not consumed (as in `parseFloat("1e")`). -/
def parseExponent (cs : List Char) : Int :=
  match cs with
  | 'e' :: rest => parseExponentSigned rest
  | 'E' :: rest => parseExponentSigned rest
  | _ => 0

/-- Mantissa-and-exponent core of `parseFloat` after whitespace skipping. -/
def jsParseFloatCore (cs : List Char) : Option ℚ :=
  let signVal : ℚ := match cs with
    | '-' :: _ => -1
    | _ => 1
  let cs1 : List Char := match cs with
    | '-' :: rest => rest
    | '+' :: rest => rest
    | _ => cs
  let intPart := cs1.takeWhile Char.isDigit
  let afterInt := cs1.dropWhile Char.isDigit
  let fracPart : List Char := match afterInt with
    | '.' :: rest => rest.takeWhile Char.isDigit
    | _ => []
  let afterFrac : List Char := match afterInt with
    | '.' :: rest => rest.dropWhile Char.isDigit
    | _ => afterInt
  if intPart.isEmpty && fracPart.isEmpty then none
  else
    let mantissa : ℚ :=
      (digitsToNat intPart : ℚ) + (digitsToNat fracPart : ℚ) / (10 : ℚ) ^ fracPart.length
    some (signVal * mantissa * (10 : ℚ) ^ parseExponent afterFrac)

/-- JavaScript `parseFloat`, modelled over `ℚ` for its finite decimal-literal
fragment: leading whitespace is skipped, an optional sign and the longest
`digits [. digits] [exponent]` prefix are consumed, trailing garbage is
ignored, and `none` stands for `NaN`.  The `Infinity` literal and IEEE-754
rounding are not modelled; no claim depends on them. -/
def jsParseFloat (s : String) : Option ℚ :=
  jsParseFloatCore (s.data.dropWhile isJsWhitespace)

/-- JavaScript `cell.replace(/,/g, "")`: removes every comma. -/
def stripCommas (s : String) : String :=
  ⟨s.data.filter (fun c => c ≠ ',')⟩

/-- Smallest `k ≤ fuel` such that `q * 10^k` is an integer, if any. -/
def decimalScale (q : ℚ) : Nat → Option Nat
  | 0 => if q.den = 1 then some 0 else none
  | fuel + 1 =>
    if q.den = 1 then some 0
    else match decimalScale (q * 10) fuel with
      | some k => some (k + 1)
      | none => none

/-- Decimal-fraction printing used by `jsNumToString` for non-negative
values. -/
def jsNumToStringNonneg (q : ℚ) : String :=
  match decimalScale q 30 with
  | some 0 => Nat.repr q.num.natAbs
  | some k =>
    let digits := (Nat.repr (q * (10 : ℚ) ^ k).num.natAbs).data
    if digits.length ≤ k then
      ⟨'0' :: '.' :: (List.replicate (k - digits.length) '0' ++ digits)⟩
    else ⟨digits.take (digits.length - k) ++ '.' :: digits.drop (digits.length - k)⟩
  | none => Nat.repr q.num.natAbs ++ "/" ++ Nat.repr q.den

/-- JavaScript `String(n)` for the numbers reachable in this application:
integers print as their decimal digits, finite decimal fractions print with
the fewest fraction digits.  (The shortest-round-trip algorithm for IEEE
doubles is not modelled; every number the table parser produces is a finite
decimal.) -/
def jsNumToString (q : ℚ) : String :=
  if q < 0 then "-" ++ jsNumToStringNonneg (-q) else jsNumToStringNonneg q

/-- JavaScript `String.prototype.replace(/"/g, ...)` doubling every double
quote, as used by the CSV exporter. -/
def csvEscapeQuotes (s : String) : String :=
  ⟨s.data.foldr (fun c acc => if c = '"' then '"' :: '"' :: acc else c :: acc) []⟩

/-! ## Values, rows and JavaScript objects

A markdown-table cell value is either a string or a number
(`string | number` in `tableParser.ts`). -/

/-- A `string | number` value. -/
inductive JsValue where
  | str (s : String)
  | num (q : ℚ)
deriving DecidableEq, Repr

/-- String conversion `String(val)` on a possibly-missing value:
`String(undefined)` is the string `undefined`. -/
def jsValueToString : Option JsValue → String
  | none => "undefined"
  | some (.str s) => s
  | some (.num q) => jsNumToString q

/-- A table row: a JavaScript object from field names to values, modelled as
an association list in property insertion order. -/
abbrev Row := List (String × JsValue)

/-- JavaScript property assignment `obj[k] = v`: updates the value in place
when the key exists, otherwise appends the new property. -/
def objInsert (row : Row) (k : String) (v : JsValue) : Row :=
  if row.any (fun p => p.1 = k) then
    row.map (fun p => if p.1 = k then (k, v) else p)
  else row ++ [(k, v)]

/-- JavaScript property read `obj[k]`: `none` models `undefined`. -/
def rowGet (row : Row) (k : String) : Option JsValue :=
  (row.find? (fun p => p.1 = k)).map (·.2)

/-- JavaScript `Object.values(obj)`. -/
def objValues (row : Row) : List JsValue := row.map (·.2)

/-! ## Table parser (`tableParser.ts`) -/

/-- Column type tag, `"string" | "number"`. -/
inductive ColType where
  | str
  | num
deriving DecidableEq, Repr

/-- One column of a `ParsedTable` (the `width` presentation field is never
set by the parser and is omitted). -/
structure Column where
  field : String
  headerName : String
  sortable : Bool
  type : ColType
deriving DecidableEq, Repr

/-- Structured result of `parseMarkdownTable`. -/
structure ParsedTable where
  title : Option String
  columns : List Column
  rows : List Row
deriving DecidableEq, Repr

/-- Matcher combinator: consume one or more characters satisfying `p`, then
let the continuation `k` match the remainder (tries every split, as regex
backtracking does). -/
def afterPlus (p : Char → Bool) (k : List Char → Bool) : List Char → Bool
  | [] => false
  | c :: cs => p c && (k cs || afterPlus p k cs)

/-- Matcher combinator: consume zero or more characters satisfying `p`, then
let the continuation `k` match the remainder. -/
def afterStar (p : Char → Bool) (k : List Char → Bool) : List Char → Bool
  | [] => k []
  | c :: cs => k (c :: cs) || (p c && afterStar p k cs)

/-- Separator-line character class `[\s:-]` of the table-detection regex. -/
def isSeparatorChar (c : Char) : Bool :=
  isJsWhitespace c || c = ':' || c = '-'

/-- Match of the regex `\|[^\n]+\|\s*\n\|[\s:-]+\|` anchored at the head of
the input. -/
def tablePatternAt : List Char → Bool
  | '|' :: rest =>
    afterPlus (fun c => c ≠ '\n')
      (fun cs =>
        match cs with
        | '|' :: cs2 =>
          afterStar isJsWhitespace
            (fun cs3 =>
              match cs3 with
              | '\n' :: '|' :: cs4 =>
                afterPlus isSeparatorChar
                  (fun cs5 =>
                    match cs5 with
                    | '|' :: _ => true
                    | _ => false) cs4
              | _ => false) cs2
        | _ => false) rest
  | _ => false

/-- Search for the table pattern at every position of the input. -/
def tablePatternSearch : List Char → Bool
  | [] => tablePatternAt []
  | c :: cs => tablePatternAt (c :: cs) || tablePatternSearch cs

/-- Source `hasMarkdownTable`: tests the content against the regex
`/\|[^\n]+\|\s*\n\|[\s:-]+\|/`. -/
def hasMarkdownTable (content : String) : Bool :=
  tablePatternSearch content.data

/-- Run-collapsing pass of the field slug: the result of replacing every run
of characters outside `[a-z0-9]` with a single underscore.  `prevUnd` records
whether the previous output character was the underscore of a run. -/
def collapseNonAlnumAux (prevUnd : Bool) : List Char → List Char
  | [] => []
  | c :: cs =>
    if ('a' ≤ c && c ≤ 'z') || ('0' ≤ c && c ≤ '9') then
      c :: collapseNonAlnumAux false cs
    else if prevUnd then collapseNonAlnumAux true cs
    else '_' :: collapseNonAlnumAux true cs

/-- Second slug pass, the regex `^_|_$`: removes one leading and one trailing
underscore. -/
def stripEdgeUnderscores (cs : List Char) : List Char :=
  let cs1 := match cs with
    | '_' :: rest => rest
    | _ => cs
  match cs1.reverse with
  | '_' :: rest => rest.reverse
  | _ => cs1

/-- Source field derivation: `header.toLowerCase().replace(/[^a-z0-9]+/g,
"_").replace(/^_|_$/g, "")`. -/
def slugField (header : String) : String :=
  ⟨stripEdgeUnderscores (collapseNonAlnumAux false (jsToLower header).data)⟩

/-- Source column-type detection: the lower-cased header contains one of the
keywords `rank`, `cutoff`, `count`, `total`. -/
def isNumericHeader (header : String) : Bool :=
  jsIncludes (jsToLower header) "rank" || jsIncludes (jsToLower header) "cutoff" ||
    jsIncludes (jsToLower header) "count" || jsIncludes (jsToLower header) "total"

/-- Source column construction for the header cell at position `index`,
including the `col_<index>` fallback for an empty slug. -/
def mkColumn (index : Nat) (header : String) : Column :=
  let f := slugField header
  { field := if f.data.isEmpty then "col_" ++ Nat.repr index else f
    headerName := header
    sortable := true
    type := if isNumericHeader header then .num else .str }

/-- Indexed map used to model `Array.prototype.map((x, i) => ...)`. -/
def mapWithIndex (f : Nat → α → β) : Nat → List α → List β
  | _, [] => []
  | i, a :: as => f i a :: mapWithIndex f (i + 1) as

/-- Source cell extraction for one line: `line.split("|").map(trim)` with all
empty cells dropped (the `filter((cell) => cell)` truthiness test). -/
def cellsOfLine (line : String) : List String :=
  ((jsSplit line '|').map jsTrim).filter (fun c => !c.data.isEmpty)

/-- Source cell-value conversion: a numeric column whose comma-stripped cell
parses as a float stores the number, otherwise the trimmed string is kept. -/
def mkCellValue (col : Column) (cell : String) : JsValue :=
  if col.type = .num then
    match jsParseFloat (stripCommas cell) with
    | some q => .num q
    | none => .str cell
  else .str cell

/-- Row construction: the `cells.forEach((cell, index) => ...)` loop guarded
by `index < columns.length`, assigning `row[column.field] = value`. -/
def rowOfCellsAux (cols : List Column) : Nat → List String → Row → Row
  | _, [], row => row
  | i, cell :: cells, row =>
    rowOfCellsAux cols (i + 1) cells
      (match cols[i]? with
       | some col => objInsert row col.field (mkCellValue col cell)
       | none => row)

/-- Row built from the cells of one data line. -/
def rowOfCells (cols : List Column) (cells : List String) : Row :=
  rowOfCellsAux cols 0 cells []

/-- Title derivation from a heading line: `replace(/^#+\s*/, "")` then
`replace(/^\s*🎓\s*/, "")` then `trim()`. -/
def titleOfHeading (prev : String) : String :=
  let afterHashes := (prev.data.dropWhile (fun c => c = '#')).dropWhile isJsWhitespace
  let afterGlyph :=
    match afterHashes.dropWhile isJsWhitespace with
    | c :: rest => if c = '🎓' then rest.dropWhile isJsWhitespace else afterHashes
    | [] => afterHashes
  ⟨trimChars afterGlyph⟩

/-- Non-empty lines of the content, the parser's
`content.split("\n").filter((line) => line.trim())`. -/
def nonEmptyLines (content : String) : List String :=
  (jsSplit content '\n').filter (fun l => !(jsTrim l).data.isEmpty)

/-- Source `parseMarkdownTable`. -/
def parseMarkdownTable (content : String) : Option ParsedTable :=
  let lines := nonEmptyLines content
  match lines.findIdx? (fun l => jsIncludes l "|") with
  | none => none
  | some tableStartIndex =>
    let title : Option String :=
      if tableStartIndex > 0 then
        let prevLine := lines.getD (tableStartIndex - 1) ""
        if jsStartsWith prevLine "#" then some (titleOfHeading prevLine) else none
      else none
    let tableLines := (lines.drop tableStartIndex).filter (fun l => jsIncludes l "|")
    if tableLines.length < 3 then none
    else
      let headerCells := cellsOfLine (tableLines.headD "")
      let columns := mapWithIndex mkColumn 0 headerCells
      let rows := (tableLines.drop 2).map (fun l => rowOfCells columns (cellsOfLine l))
      some { title := title, columns := columns, rows := rows }

/-- The `tableLines` intermediate of `parseMarkdownTable`: all lines
containing a pipe from the first such line onwards (empty when no line
contains a pipe). -/
def tableLinesOf (content : String) : List String :=
  match (nonEmptyLines content).findIdx? (fun l => jsIncludes l "|") with
  | none => []
  | some tableStartIndex =>
    ((nonEmptyLines content).drop tableStartIndex).filter (fun l => jsIncludes l "|")

/-- Modelled from the claim wording of C4 (not from the source): cell
extraction that drops only the empty cells at the two edges of the split,
keeping interior empty cells. -/
def specDropEdgeEmpty (cells : List String) : List String :=
  ((cells.dropWhile (fun c => c.data.isEmpty)).reverse.dropWhile
    (fun c => c.data.isEmpty)).reverse

/-- Modelled from the claim wording of C4 (not from the source): split on
pipes, trim, drop only empty edge cells. -/
def specCellsOfLine (line : String) : List String :=
  specDropEdgeEmpty ((jsSplit line '|').map jsTrim)

/-- Tag of a content part, `"text" | "table"`. -/
inductive PartType where
  | text
  | table
deriving DecidableEq, Repr

/-- One part produced by `splitContentWithTables`. -/
structure ContentPart where
  type : PartType
  content : String
deriving DecidableEq, Repr

/-- Accumulating part of the `splitContentWithTables` loop (its `lines` are
kept in order). -/
structure CurrentPart where
  type : PartType
  lineAcc : List String
deriving DecidableEq, Repr

/-- Loop state of `splitContentWithTables`: emitted parts, the current
accumulating part, and the `inTable` flag. -/
structure SplitState where
  parts : List ContentPart
  current : Option CurrentPart
  inTable : Bool
deriving DecidableEq, Repr

/-- Flush the current part onto the emitted list. -/
def flushCurrent (parts : List ContentPart) : Option CurrentPart → List ContentPart
  | none => parts
  | some cp => parts ++ [{ type := cp.type, content := jsJoin "\n" cp.lineAcc }]

/-- Loop body of `splitContentWithTables` for one line. -/
def splitStep (st : SplitState) (line : String) : SplitState :=
  let isTableLine := jsStartsWith (jsTrim line) "|"
  if isTableLine && !st.inTable then
    { parts := flushCurrent st.parts st.current
      current := some { type := .table, lineAcc := [line] }
      inTable := true }
  else if !isTableLine && st.inTable then
    { parts := flushCurrent st.parts st.current
      current := some { type := .text, lineAcc := [line] }
      inTable := false }
  else
    match st.current with
    | none => { st with current := some { type := .text, lineAcc := [line] } }
    | some cp => { st with current := some { cp with lineAcc := cp.lineAcc ++ [line] } }

/-- Source `splitContentWithTables`. -/
def splitContentWithTables (content : String) : List ContentPart :=
  let lines := jsSplit content '\n'
  let final := lines.foldl splitStep { parts := [], current := none, inTable := false }
  (flushCurrent final.parts final.current).filter
    (fun part => !(jsTrim part.content).data.isEmpty)

/-- A highlight rule produced by `getHighlightRules`. -/
structure HighlightRule where
  column : String
  threshold : ℚ
  color : String
deriving DecidableEq, Repr

/-- Source `getHighlightRules`: one `success` rule with threshold 5000 for
every numeric column whose field contains `cutoff` or `rank`. -/
def getHighlightRules (columns : List Column) : List HighlightRule :=
  columns.foldl
    (fun rules col =>
      if col.type = .num && (jsIncludes col.field "cutoff" || jsIncludes col.field "rank") then
        rules ++ [{ column := col.field, threshold := 5000, color := "success" }]
      else rules) []

/-! ## Table renderer logic (`TableMessage.tsx`)

The interactive state is the pair of `useState` hooks `sortColumn` /
`sortDirection` (plus the search query, threaded as a plain argument). -/

/-- Sort direction, `"asc" | "desc"`. -/
inductive SortDir where
  | asc
  | desc
deriving DecidableEq, Repr

/-- Sort state of the table widget; the initial state is
`{ sortColumn := "", sortDirection := .asc }`. -/
structure SortState where
  sortColumn : String
  sortDirection : SortDir
deriving DecidableEq, Repr

/-- Source `handleSort`: clicking a header toggles the direction when the
column is already the sort column, otherwise selects it ascending. -/
def handleSort (st : SortState) (field : String) : SortState :=
  if st.sortColumn = field then
    { st with sortDirection := if st.sortDirection = .asc then .desc else .asc }
  else { sortColumn := field, sortDirection := .asc }

/-- Lexicographic comparison of character lists by code point. -/
def lexCompareChars : List Char → List Char → Ordering
  | [], [] => .eq
  | [], _ :: _ => .lt
  | _ :: _, [] => .gt
  | a :: as, b :: bs =>
    if a < b then .lt else if b < a then .gt else lexCompareChars as bs

/-- JavaScript `a.localeCompare(b)` mapped to `-1`/`0`/`1`, modelled as
code-point lexicographic comparison (locale-specific collation is not
modelled; the inputs are already lower-cased by the caller). -/
def localeCompareQ (a b : String) : ℚ :=
  match lexCompareChars a.data b.data with
  | .lt => -1
  | .eq => 0
  | .gt => 1

/-- Source sort comparator on two rows: numeric difference when both values
are numbers, otherwise `localeCompare` of the lower-cased stringified values
(argument order swapped for descending order, as in the source). -/
def rowCompare (st : SortState) (a b : Row) : ℚ :=
  let aVal := rowGet a st.sortColumn
  let bVal := rowGet b st.sortColumn
  match aVal, bVal with
  | some (.num aq), some (.num bq) =>
    if st.sortDirection = .asc then aq - bq else bq - aq
  | _, _ =>
    let aStr := jsToLower (jsValueToString aVal)
    let bStr := jsToLower (jsValueToString bVal)
    if st.sortDirection = .asc then localeCompareQ aStr bStr
    else localeCompareQ bStr aStr

/-- Stable insertion of `x` into a list whose elements all preceded `x` in
the original array: `x` goes in front of the first element it does not
strictly follow. -/
def stableInsert (leB : α → α → Bool) (x : α) : List α → List α
  | [] => [x]
  | y :: ys => if leB x y then x :: y :: ys else y :: stableInsert leB x ys

/-- Stable sort, modelling `Array.prototype.sort` (specified stable since
ES2019).  Insertion sort agrees with every stable sort whenever the
comparator is consistent; for inconsistent comparators ECMAScript leaves the
order implementation-defined. -/
def stableSort (leB : α → α → Bool) : List α → List α
  | [] => []
  | x :: xs => stableInsert leB x (stableSort leB xs)

/-- Source `sortedRows`: the row set sorted by the current sort state; an
empty `sortColumn` (falsy) leaves the rows untouched. -/
def sortedRows (st : SortState) (rows : List Row) : List Row :=
  if st.sortColumn = "" then rows
  else stableSort (fun a b => rowCompare st a b ≤ 0) rows

/-- Source `filteredRows` predicate: some stringified field value of the row
contains the lower-cased query. -/
def rowMatchesQuery (query : String) (row : Row) : Bool :=
  (objValues row).any fun v =>
    jsIncludes (jsToLower (jsValueToString (some v))) (jsToLower query)

/-- Source `filteredRows`: the sorted rows filtered by the search query; a
query with blank trim (falsy) disables filtering. -/
def filteredRows (st : SortState) (query : String) (rows : List Row) : List Row :=
  if (jsTrim query).data.isEmpty then sortedRows st rows
  else (sortedRows st rows).filter (rowMatchesQuery query)

/-- One exported CSV cell: the stringified value wrapped in double quotes
with internal double quotes doubled. -/
def csvCell (row : Row) (col : Column) : String :=
  "\"" ++ csvEscapeQuotes (jsValueToString (rowGet row col.field)) ++ "\""

/-- One exported CSV data row. -/
def csvRow (columns : List Column) (row : Row) : String :=
  jsJoin "," (columns.map (fun col => csvCell row col))

/-- Source `handleExport` CSV text: the header-name row followed by the
currently filtered-and-sorted rows, joined by newlines. -/
def exportCsv (columns : List Column) (st : SortState) (query : String)
    (rows : List Row) : String :=
  jsJoin "\n"
    ([jsJoin "," (columns.map (·.headerName))] ++
      (filteredRows st query rows).map (fun row => csvRow columns row))

/-- Source `getCellColor`: the first highlight rule for the column decides
the background band of a numeric cell. -/
def getCellColor (highlightRules : List HighlightRule) (column : String)
    (value : Option JsValue) : Option String :=
  match highlightRules.find? (fun r => r.column = column) with
  | none => none
  | some rule =>
    match value with
    | some (.num q) =>
      if q ≤ rule.threshold && rule.color = "success" then some "#d4edda"
      else if rule.threshold < q && q ≤ rule.threshold * 2 && rule.color = "warning" then
        some "#fff3cd"
      else if rule.threshold * 2 < q && rule.color = "error" then some "#f8d7da"
      else none
    | _ => none

/-- Badge tier returned by `getRankBadge` (the associated icon is purely
presentational). -/
inductive Badge where
  | gold
  | silver
  | bronze
deriving DecidableEq, Repr

/-- Source `getRankBadge`. -/
def getRankBadge (rank : ℚ) : Option Badge :=
  if rank ≤ 1000 then some .gold
  else if rank ≤ 5000 then some .silver
  else if rank ≤ 20000 then some .bronze
  else none

/-- Cell-render test `isRankColumn`: the lower-cased field contains `cutoff`
or `rank`. -/
def isRankColumn (col : Column) : Bool :=
  jsIncludes (jsToLower col.field) "cutoff" || jsIncludes (jsToLower col.field) "rank"

/-- Visual attributes computed per cell by the renderer: background colour
(from the highlight rules) and rank badge. -/
def cellView (highlightRules : List HighlightRule) (col : Column)
    (value : Option JsValue) : Option String × Option Badge :=
  (getCellColor highlightRules col.field value,
    match value with
    | some (.num q) => if isRankColumn col then getRankBadge q else none
    | _ => none)

/-! ## Chat stream reducer (`AIChat.tsx` message handler) and reconnect
policy (`chatService.ts`) -/

/-- Message role. -/
inductive Role where
  | user
  | assistant
  | system
  | thinking
deriving DecidableEq, Repr

/-- A chat message (the opaque optional `metadata` field is omitted). -/
structure Msg where
  message_id : String
  role : Role
  content : String
  timestamp : String
deriving DecidableEq, Repr

/-- A transient thinking step; `completed` is absent until a completed
`tool_call` marks the last step. -/
structure TStep where
  step : String
  timestamp : String
  completed : Option Bool
deriving DecidableEq, Repr

/-- Server-pushed WebSocket events, carrying exactly the payload fields the
handler reads. -/
inductive WsEvent where
  | welcome (message : String)
  | thinking (step : String) (timestamp : String)
  | tool_call (status : String)
  | response_chunk (content : String)
  | response_complete (message_id : String) (full_content : String)
  | errorEvent (message : String)
  | history (messages : List Msg)
deriving DecidableEq, Repr

/-- The `AIChat` component state touched by the message handler. -/
structure ChatState where
  messages : List Msg
  thinkingSteps : List TStep
  isProcessing : Bool
  isConnected : Bool
  errorText : String
deriving DecidableEq, Repr

/-- Initial component state of a freshly mounted chat view. -/
def initialChatState : ChatState :=
  { messages := [], thinkingSteps := [], isProcessing := false,
    isConnected := true, errorText := "" }

/-- Marking of the most recently appended thinking step by a completed
`tool_call`: the `prev.map((s, i) => i === prev.length - 1 ? ... : s)`
update. -/
def markLastCompleted (steps : List TStep) : List TStep :=
  mapWithIndex
    (fun i s => if i = steps.length - 1 then { s with completed := some true } else s)
    0 steps

/-- One transition of the `AIChat` `onMessage` switch.  `isExistingSession`
is the closure flag deciding whether a `welcome` replaces the message list;
`now` models `new Date().toISOString()` at the processing instant. -/
def chatStep (isExistingSession : Bool) (now : String) (s : ChatState)
    (e : WsEvent) : ChatState :=
  match e with
  | .welcome m =>
    { s with
      messages :=
        if isExistingSession then s.messages
        else [{ message_id := "welcome", role := .assistant, content := m,
                timestamp := now }]
      isConnected := true }
  | .thinking stepText ts =>
    { s with thinkingSteps := s.thinkingSteps ++ [⟨stepText, ts, none⟩] }
  | .tool_call status =>
    if status = "completed" then
      { s with thinkingSteps := markLastCompleted s.thinkingSteps }
    else s
  | .response_chunk c =>
    { s with
      messages :=
        match s.messages.getLast? with
        | some lastMessage =>
          if lastMessage.role = .assistant &&
              !jsStartsWith lastMessage.message_id "final-" then
            s.messages.dropLast ++
              [{ lastMessage with content := lastMessage.content ++ c }]
          else
            s.messages ++
              [{ message_id := "streaming", role := .assistant, content := c,
                 timestamp := now }]
        | none =>
          s.messages ++
            [{ message_id := "streaming", role := .assistant, content := c,
               timestamp := now }] }
  | .response_complete mid full =>
    { s with
      thinkingSteps := []
      isProcessing := false
      messages :=
        match s.messages.getLast? with
        | some lastMessage =>
          if lastMessage.message_id = "streaming" then
            s.messages.dropLast ++
              [{ lastMessage with message_id := "final-" ++ mid, content := full }]
          else s.messages
        | none => s.messages }
  | .errorEvent m =>
    { s with
      errorText := if m = "" then "An error occurred" else m
      isProcessing := false
      thinkingSteps := [] }
  | .history msgs => { s with messages := msgs }

/-- Fold of the stream reducer over a sequence of events, each paired with
the wall-clock string at its processing instant. -/
def chatRun (isExistingSession : Bool) (s : ChatState)
    (events : List (String × WsEvent)) : ChatState :=
  events.foldl (fun st p => chatStep isExistingSession p.1 st p.2) s

/-- Retry ceiling `maxReconnectAttempts` of `ChatService`. -/
def maxReconnectAttempts : Nat := 5

/-- Source `handleReconnect`, as a function of the current
`reconnectAttempts` counter: returns the new counter together with the delay
(in milliseconds) of the scheduled reconnect attempt, or `none` when the
ceiling stops reconnection.  The socket `onclose` handler invokes exactly
this function. -/
def handleReconnect (reconnectAttempts : Nat) : Nat × Option Nat :=
  if reconnectAttempts < maxReconnectAttempts then
    (reconnectAttempts + 1, some (1000 * (reconnectAttempts + 1)))
  else (reconnectAttempts, none)

/-! ## Supporting lemmas -/

/-- Equality characterization of the lexicographic comparator. -/
lemma lexCompareChars_eq_iff (as : List Char) : ∀ bs,
    lexCompareChars as bs = .eq ↔ as = bs := by
  induction as with
  | nil => intro bs; cases bs <;> simp [lexCompareChars]
  | cons a as ih =>
    intro bs
    cases bs with
    | nil => simp [lexCompareChars]
    | cons b bs =>
      by_cases hab : a < b
      · simp [lexCompareChars, hab, ne_of_lt hab]
      · by_cases hba : b < a
        · simp [lexCompareChars, hab, hba, (ne_of_lt hba).symm]
        · have hEq : a = b := le_antisymm (not_lt.mp hba) (not_lt.mp hab)
          subst hEq
          simp [lexCompareChars, ih]

/-- Strict-order characterization of the lexicographic comparator in terms
of `List.Lex`. -/
lemma lexCompareChars_lt_iff (as : List Char) : ∀ bs,
    lexCompareChars as bs = .lt ↔ List.Lex (· < ·) as bs := by
  induction as with
  | nil =>
    intro bs
    cases bs with
    | nil =>
      constructor
      · intro h; exact absurd h (by simp [lexCompareChars])
      · intro h; exact absurd h (List.Lex.not_nil_right _ _)
    | cons b bs =>
      constructor
      · intro _; exact List.Lex.nil
      · intro _; rfl
  | cons a as ih =>
    intro bs
    cases bs with
    | nil =>
      constructor
      · intro h; exact absurd h (by simp [lexCompareChars])
      · intro h; exact absurd h (List.Lex.not_nil_right _ _)
    | cons b bs =>
      by_cases hab : a < b
      · constructor
        · intro _; exact List.Lex.rel hab
        · intro _; simp [lexCompareChars, hab]
      · by_cases hba : b < a
        · constructor
          · intro h; exact absurd h (by simp [lexCompareChars, hab, hba])
          · intro h
            cases h with
            | rel h' => exact absurd h' hab
            | cons h' => exact absurd hba (lt_irrefl a)
        · have hEq : a = b := le_antisymm (not_lt.mp hba) (not_lt.mp hab)
          subst hEq
          constructor
          · intro h
            refine List.Lex.cons ((ih bs).mp ?_)
            simpa [lexCompareChars, hab] using h
          · intro h
            have h' : List.Lex (· < ·) as bs := by
              cases h with
              | rel h' => exact absurd h' hab
              | cons h' => exact h'
            simpa [lexCompareChars, hab] using (ih bs).mpr h'

/-- Zero of `localeCompareQ` means string equality. -/
lemma localeCompareQ_eq_zero_iff (s t : String) :
    localeCompareQ s t = 0 ↔ s = t := by
  unfold localeCompareQ
  rw [String.ext_iff, ← lexCompareChars_eq_iff]
  rcases h : lexCompareChars s.data t.data <;> simp [h]

/-- Negativity of `localeCompareQ` is the lexicographic strict order. -/
lemma localeCompareQ_neg_iff (s t : String) :
    localeCompareQ s t < 0 ↔ List.Lex (· < ·) s.data t.data := by
  unfold localeCompareQ
  rw [← lexCompareChars_lt_iff]
  rcases h : lexCompareChars s.data t.data <;> simp [h]

/-- The character-level split never returns an empty list of pieces. -/
lemma jsSplitCharAux_ne_nil (sep : Char) (cs : List Char) :
    jsSplitCharAux sep cs ≠ [] := by
  induction cs with
  | nil => simp [jsSplitCharAux]
  | cons c cs ih =>
    by_cases h : c = sep
    · simp [jsSplitCharAux, h]
    · simp only [jsSplitCharAux, if_neg h]
      rcases haux : jsSplitCharAux sep cs with _ | ⟨l, ls⟩
      · simp
      · simp

/-- Joining the newline split with newlines reproduces the character list. -/
lemma jsJoin_split_chars (cs : List Char) :
    jsJoin "\n" ((jsSplitCharAux '\n' cs).map String.mk) = ⟨cs⟩ := by
  induction cs with
  | nil => rfl
  | cons c cs ih =>
    by_cases h : c = '\n'
    · subst h
      rcases haux : (jsSplitCharAux '\n' cs).map String.mk with _ | ⟨y, ys⟩
      · exact absurd (List.map_eq_nil_iff.mp haux) (jsSplitCharAux_ne_nil _ _)
      · rw [haux] at ih
        apply String.ext
        have hd := congrArg String.data ih
        have hgoal : jsJoin "\n" ((jsSplitCharAux '\n' ('\n' :: cs)).map String.mk) =
            "" ++ "\n" ++ jsJoin "\n" (y :: ys) := by
          simp [jsSplitCharAux, haux, jsJoin]
        rw [hgoal]
        simp only [String.data_append,
          (show ("\n" : String).data = ['\n'] from rfl),
          (show ("" : String).data = [] from rfl)]
        simp [hd]
    · simp only [jsSplitCharAux, if_neg h]
      rcases haux : jsSplitCharAux '\n' cs with _ | ⟨l, ls⟩
      · exact absurd haux (jsSplitCharAux_ne_nil _ _)
      · rw [haux] at ih
        rcases ls with _ | ⟨l2, ls2⟩
        · have : (⟨l⟩ : String) = ⟨cs⟩ := by simpa [jsJoin] using ih
          have hl : l = cs := by simpa using congrArg String.data this
          simp [jsJoin, hl]
        · apply String.ext
          have hd := congrArg String.data ih
          simp only [List.map_cons, jsJoin, String.data_append,
            (show ("\n" : String).data = ['\n'] from rfl)] at hd ⊢
          simp [hd]

/-- Splitting a string on newlines and rejoining reproduces the string. -/
lemma jsJoin_jsSplit (content : String) :
    jsJoin "\n" (jsSplit content '\n') = content :=
  jsJoin_split_chars content.data

/-- Folding the split loop over table-free lines only extends the current
accumulating part. -/
lemma splitStep_text_fold (lines : List String)
    (h : ∀ l ∈ lines, jsStartsWith (jsTrim l) "|" = false) :
    ∀ (parts : List ContentPart) (ty : PartType) (acc : List String),
    List.foldl splitStep ⟨parts, some ⟨ty, acc⟩, false⟩ lines =
      ⟨parts, some ⟨ty, acc ++ lines⟩, false⟩ := by
  induction lines with
  | nil => intro parts ty acc; simp
  | cons l ls ih =>
    intro parts ty acc
    have hl : jsStartsWith (jsTrim l) "|" = false := h l (by simp)
    have hrest : ∀ x ∈ ls, jsStartsWith (jsTrim x) "|" = false := fun x hx =>
      h x (by simp [hx])
    have hstep : splitStep ⟨parts, some ⟨ty, acc⟩, false⟩ l =
        ⟨parts, some ⟨ty, acc ++ [l]⟩, false⟩ := by
      simp [splitStep, hl]
    rw [List.foldl_cons, hstep, ih hrest]
    simp

/-- Membership in a JavaScript-object assignment comes from the old object
or is the assigned pair. -/
lemma mem_objInsert {row : Row} {k : String} {v : JsValue} {p : String × JsValue}
    (hp : p ∈ objInsert row k v) : p ∈ row ∨ p = (k, v) := by
  unfold objInsert at hp
  split at hp
  · rcases List.mem_map.mp hp with ⟨q, hq, hqe⟩
    by_cases hqk : q.1 = k
    · right
      rw [← hqe]
      simp [hqk]
    · left
      rw [← hqe]
      simpa [hqk] using hq
  · rcases List.mem_append.mp hp with h | h
    · exact Or.inl h
    · right
      simpa using h

/-- Assigning a fresh key appends the pair. -/
lemma objInsert_not_mem {row : Row} {k : String} {v : JsValue}
    (h : ∀ p ∈ row, p.1 ≠ k) : objInsert row k v = row ++ [(k, v)] := by
  unfold objInsert
  rw [if_neg]
  simp only [List.any_eq_true, decide_eq_true_eq, not_exists]
  intro p
  by_cases hp : p ∈ row
  · simp [hp, h p hp]
  · simp [hp]

/-- Every binding produced by the row-construction loop comes from some
column of the table, with a value built by `mkCellValue` from some cell. -/
lemma rowOfCellsAux_spec (cols : List Column) :
    ∀ (cells : List String) (i : Nat) (row : Row),
    (∀ p ∈ row, ∃ col ∈ cols, p.1 = col.field ∧ ∃ cell, p.2 = mkCellValue col cell) →
    ∀ p ∈ rowOfCellsAux cols i cells row,
      ∃ col ∈ cols, p.1 = col.field ∧ ∃ cell, p.2 = mkCellValue col cell := by
  intro cells
  induction cells with
  | nil =>
    intro i row hrow p hp
    exact hrow p hp
  | cons cell cells ih =>
    intro i row hrow p hp
    rcases hcol : cols[i]? with _ | col
    · refine ih (i + 1) row hrow p ?_
      simpa [rowOfCellsAux, hcol] using hp
    · refine ih (i + 1) (objInsert row col.field (mkCellValue col cell)) ?_ p ?_
      · intro q hq
        rcases mem_objInsert hq with h | h
        · exact hrow q h
        · subst h
          exact ⟨col, List.getElem?_mem hcol, rfl, cell, rfl⟩
      · simpa [rowOfCellsAux, hcol] using hp

/-- With pairwise-distinct column fields the row-construction loop is the
positional zip of cells against the remaining columns. -/
lemma rowOfCellsAux_zip (cols : List Column) :
    ∀ (cells : List String) (i : Nat) (row : Row),
    (((cols.drop i).map Column.field).Nodup) →
    (∀ p ∈ row, ∀ col ∈ cols.drop i, p.1 ≠ col.field) →
    rowOfCellsAux cols i cells row =
      row ++ (cells.zip (cols.drop i)).map
        (fun p => (p.2.field, mkCellValue p.2 p.1)) := by
  intro cells
  induction cells with
  | nil =>
    intro i row _ _
    simp [rowOfCellsAux]
  | cons cell cells ih =>
    intro i row hnd hdis
    rcases hcol : cols[i]? with _ | col
    · have hge : cols.length ≤ i := List.getElem?_eq_none_iff.mp hcol
      have hdrop : cols.drop i = [] := List.drop_eq_nil_of_le hge
      have hdrop1 : cols.drop (i + 1) = [] :=
        List.drop_eq_nil_of_le (le_trans hge (Nat.le_succ i))
      have hstep : rowOfCellsAux cols i (cell :: cells) row =
          rowOfCellsAux cols (i + 1) cells row := by
        simp [rowOfCellsAux, hcol]
      rw [hstep, ih (i + 1) row (by simp [hdrop1]) (by simp [hdrop1])]
      simp [hdrop, hdrop1]
    · obtain ⟨hlt, hget⟩ := List.getElem?_eq_some_iff.mp hcol
      have hdropc : cols.drop i = col :: cols.drop (i + 1) := by
        rw [List.drop_eq_getElem_cons hlt, hget]
      have hheadtail : (col.field :: ((cols.drop (i + 1)).map Column.field)).Nodup := by
        rw [hdropc] at hnd
        simpa using hnd
      have hnotmem : ∀ p ∈ row, p.1 ≠ col.field := fun p hp =>
        hdis p hp col (by rw [hdropc]; exact List.mem_cons_self _ _)
      have hstep : rowOfCellsAux cols i (cell :: cells) row =
          rowOfCellsAux cols (i + 1) cells
            (row ++ [(col.field, mkCellValue col cell)]) := by
        simp [rowOfCellsAux, hcol, objInsert_not_mem hnotmem]
      rw [hstep, ih (i + 1) _ ((List.nodup_cons.mp hheadtail).2) ?_]
      · rw [hdropc]
        simp
      · intro p hp col2 hc2
        rcases List.mem_append.mp hp with h | h
        · exact hdis p h col2 (by rw [hdropc]; exact List.mem_cons_of_mem _ hc2)
        · have hpe : p = (col.field, mkCellValue col cell) := by simpa using h
          subst hpe
          intro he
          have he2 : col.field = col2.field := he
          have hin : col.field ∈ (cols.drop (i + 1)).map Column.field := by
            rw [he2]
            exact List.mem_map_of_mem Column.field hc2
          exact (List.nodup_cons.mp hheadtail).1 hin

/-- The zip form of a freshly built row. -/
lemma rowOfCells_zip (cols : List Column) (cells : List String)
    (hnd : (cols.map Column.field).Nodup) :
    rowOfCells cols cells =
      (cells.zip cols).map (fun p => (p.2.field, mkCellValue p.2 p.1)) := by
  have h := rowOfCellsAux_zip cols cells 0 [] (by simpa using hnd) (by simp)
  simpa [rowOfCells] using h

/-- Second components of a zip are the truncated second list. -/
lemma map_snd_zip_take : ∀ (l1 : List α) (l2 : List β),
    (l1.zip l2).map Prod.snd = l2.take l1.length := by
  intro l1
  induction l1 with
  | nil => intro l2; simp
  | cons a l1 ih =>
    intro l2
    cases l2 with
    | nil => simp
    | cons b l2 => simp [ih]

/-- A column positioned beyond the cell count leaves its field absent from
the built row, provided the column fields are pairwise distinct. -/
lemma rowGet_rowOfCells_none (cols : List Column) (cells : List String)
    (col : Column) (hnd : (cols.map Column.field).Nodup)
    (hmem : col ∈ cols.drop cells.length) :
    rowGet (rowOfCells cols cells) col.field = none := by
  rw [rowOfCells_zip cols cells hnd, rowGet]
  have hfind : ((cells.zip cols).map
      (fun p => (p.2.field, mkCellValue p.2 p.1))).find?
      (fun p => p.1 = col.field) = none := by
    rw [List.find?_eq_none]
    intro x hx
    rcases List.mem_map.mp hx with ⟨⟨cell, c⟩, hzip, hxe⟩
    have hc : c ∈ cols.take cells.length := by
      have hmemzip : c ∈ (cells.zip cols).map Prod.snd :=
        List.mem_map_of_mem Prod.snd hzip
      rwa [map_snd_zip_take] at hmemzip
    have hne : c.field ≠ col.field := by
      intro he
      have h1 : c.field ∈ (cols.take cells.length).map Column.field :=
        List.mem_map_of_mem Column.field hc
      have h2 : col.field ∈ (cols.drop cells.length).map Column.field :=
        List.mem_map_of_mem Column.field hmem
      have hsplit : (cols.take cells.length).map Column.field ++
          (cols.drop cells.length).map Column.field = cols.map Column.field := by
        rw [← List.map_append, List.take_append_drop]
      have hnd2 : ((cols.take cells.length).map Column.field ++
          (cols.drop cells.length).map Column.field).Nodup := by
        rw [hsplit]
        exact hnd
      exact List.disjoint_of_nodup_append hnd2 h1 (he ▸ h2)
    rw [← hxe]
    simpa using hne
  rw [hfind]
  rfl

/-- Elimination of a successful parse: the columns come from the header
cells and each row from a later table line. -/
lemma parse_some_elim (content : String) (t : ParsedTable)
    (h : parseMarkdownTable content = some t) :
    t.columns =
      mapWithIndex mkColumn 0 (cellsOfLine ((tableLinesOf content).headD "")) ∧
    t.rows = ((tableLinesOf content).drop 2).map
      (fun l => rowOfCells t.columns (cellsOfLine l)) := by
  unfold parseMarkdownTable at h
  dsimp only at h
  rcases hidx : (nonEmptyLines content).findIdx? (fun l => jsIncludes l "|")
    with _ | idx
  · rw [hidx] at h
    exact absurd h (by simp)
  · rw [hidx] at h
    dsimp only at h
    unfold tableLinesOf
    rw [hidx]
    dsimp only
    split at h
    · exact absurd h (by simp)
    · have ht := Option.some.inj h
      subst ht
      exact ⟨rfl, rfl⟩

/-! ## Claim theorems -/

/-- C2: the table-parser functions are total.  In this embedding every
function is a total Lean function, so for every input each of
`hasMarkdownTable`, `parseMarkdownTable`, `splitContentWithTables` and
`getHighlightRules` yields a value (a boolean, `none` or a table, a part
list, a rule list) and no error path exists. -/
theorem c2_parser_totality (content : String) (columns : List Column) :
    (∃ b : Bool, hasMarkdownTable content = b) ∧
    (∃ r : Option ParsedTable, parseMarkdownTable content = r) ∧
    (∃ parts : List ContentPart, splitContentWithTables content = parts) ∧
    (∃ rules : List HighlightRule, getHighlightRules columns = rules) :=
  ⟨⟨_, rfl⟩, ⟨_, rfl⟩, ⟨_, rfl⟩, ⟨_, rfl⟩⟩

/-- C10: processing an `error` WebSocket event leaves the message list
exactly unchanged; only the error text is set (with a default for a falsy
payload), the processing flag is cleared and the thinking-step list is
emptied; the connectivity flag is also untouched. -/
theorem c10_error_event_frame (isExistingSession : Bool) (now : String)
    (s : ChatState) (m : String) :
    (chatStep isExistingSession now s (.errorEvent m)).messages = s.messages ∧
    (chatStep isExistingSession now s (.errorEvent m)).thinkingSteps = [] ∧
    (chatStep isExistingSession now s (.errorEvent m)).isProcessing = false ∧
    (chatStep isExistingSession now s (.errorEvent m)).errorText =
      (if m = "" then "An error occurred" else m) ∧
    (chatStep isExistingSession now s (.errorEvent m)).isConnected = s.isConnected :=
  ⟨rfl, rfl, rfl, rfl, rfl⟩

/-- Counterexample to C1 as stated: for the claimed event sequence on a new
session, the single assistant message ends with content
`greeting ++ chunks`, ("Hiabc"), not the `response_complete` event's
`full_content` ("FULL").  The chunks are appended to the welcome message
(whose id is `welcome`, hence assistant and not finalized), so
`response_complete` finds a last message whose id is not `streaming` and
leaves the list unchanged. -/
theorem c1_full_content_counterexample :
    (chatRun false initialChatState
        [("t0", .welcome "Hi"), ("t1", .thinking "s1" "ts1"),
         ("t2", .thinking "s2" "ts2"), ("t3", .response_chunk "a"),
         ("t4", .response_chunk "b"), ("t5", .response_chunk "c"),
         ("t6", .tool_call "completed"),
         ("t7", .response_complete "m1" "FULL")]).messages =
      [{ message_id := "welcome", role := .assistant, content := "Hiabc",
         timestamp := "t0" }] ∧
    (chatRun false initialChatState
        [("t0", .welcome "Hi"), ("t1", .thinking "s1" "ts1"),
         ("t2", .thinking "s2" "ts2"), ("t3", .response_chunk "a"),
         ("t4", .response_chunk "b"), ("t5", .response_chunk "c"),
         ("t6", .tool_call "completed"),
         ("t7", .response_complete "m1" "FULL")]).thinkingSteps = [] ∧
    "Hiabc" ≠ "FULL" := by
  refine ⟨rfl, rfl, ?_⟩
  decide

/-- C1 (amended): starting from the initial state of a new session, the
event sequence `[welcome, thinking, thinking, response_chunk×3,
tool_call(completed), response_complete]` yields a message list containing
exactly one assistant message, whose content is the welcome greeting
followed by the concatenation of the chunk contents (not the
`response_complete` event's `full_content`, which is discarded because the
last message's id is `welcome` rather than `streaming`), and an empty
thinking-step list. -/
theorem c1_stream_fold_appends_to_welcome
    (greeting s1 s2 ts1 ts2 c1 c2 c3 mid full : String)
    (t0 t1 t2 t3 t4 t5 t6 t7 : String) :
    (chatRun false initialChatState
        [(t0, .welcome greeting), (t1, .thinking s1 ts1), (t2, .thinking s2 ts2),
         (t3, .response_chunk c1), (t4, .response_chunk c2),
         (t5, .response_chunk c3), (t6, .tool_call "completed"),
         (t7, .response_complete mid full)]).messages =
      [{ message_id := "welcome", role := .assistant,
         content := greeting ++ c1 ++ c2 ++ c3, timestamp := t0 }] ∧
    (chatRun false initialChatState
        [(t0, .welcome greeting), (t1, .thinking s1 ts1), (t2, .thinking s2 ts2),
         (t3, .response_chunk c1), (t4, .response_chunk c2),
         (t5, .response_chunk c3), (t6, .tool_call "completed"),
         (t7, .response_complete mid full)]).thinkingSteps = [] :=
  ⟨rfl, rfl⟩

/-- Counterexample to C9 as stated: the reconnect delay grows linearly
(1000, 2000, 3000 ms for the first three attempts), not exponentially: the
middle delay squared differs from the product of its neighbours, so the
delays are not a geometric progression. -/
theorem c9_counterexample_linear :
    (handleReconnect 0).2 = some 1000 ∧ (handleReconnect 1).2 = some 2000 ∧
    (handleReconnect 2).2 = some 3000 ∧
    ((handleReconnect 1).2.getD 0) * ((handleReconnect 1).2.getD 0) ≠
      ((handleReconnect 0).2.getD 0) * ((handleReconnect 2).2.getD 0) := by
  refine ⟨rfl, rfl, rfl, ?_⟩
  decide

/-- C9 (amended): on every WebSocket close, while the number of reconnect
attempts is below the fixed ceiling of 5, the client schedules exactly one
reconnect attempt whose delay grows linearly with the attempt number
(`1000 * (attempts + 1)` ms); at or beyond the ceiling no reconnect is
scheduled and the connection remains down. -/
theorem c9_bounded_linear_backoff (attempts : Nat) :
    (attempts < maxReconnectAttempts →
      handleReconnect attempts = (attempts + 1, some (1000 * (attempts + 1)))) ∧
    (maxReconnectAttempts ≤ attempts →
      handleReconnect attempts = (attempts, none)) := by
  constructor
  · intro h
    simp [handleReconnect, h]
  · intro h
    simp [handleReconnect, Nat.not_lt.mpr h]

/-- Witness for C9: the amended theorem applied at attempts 2 and 7. -/
theorem c9_backoff_witness :
    handleReconnect 2 = (3, some 3000) ∧ handleReconnect 7 = (7, none) :=
  ⟨(c9_bounded_linear_backoff 2).1 (by decide),
   (c9_bounded_linear_backoff 7).2 (by decide)⟩

/-- C8: for every cell whose column field name contains `cutoff` or `rank`
and whose value is a number, the renderer attaches a rank badge independent
of any highlight rules, with fixed thresholds: up to 1000 the top tier
(gold), above 1000 up to 5000 the second tier (silver), above 5000 up to
20000 the third tier (bronze), above 20000 none; in particular 950 is gold,
1500 silver, 25000 none.  Non-numeric and missing values, and non-rank
columns, get no badge. -/
theorem c8_rank_badges :
    (∀ (rules₁ rules₂ : List HighlightRule) (col : Column) (v : Option JsValue),
      (cellView rules₁ col v).2 = (cellView rules₂ col v).2) ∧
    (∀ (rules : List HighlightRule) (col : Column) (q : ℚ),
      isRankColumn col = true →
      (cellView rules col (some (.num q))).2 = getRankBadge q) ∧
    (∀ (rules : List HighlightRule) (col : Column) (q : ℚ),
      isRankColumn col = false →
      (cellView rules col (some (.num q))).2 = none) ∧
    (∀ (rules : List HighlightRule) (col : Column) (s : String),
      (cellView rules col (some (.str s))).2 = none ∧
      (cellView rules col none).2 = none) ∧
    (∀ q : ℚ,
      (getRankBadge q = some .gold ↔ q ≤ 1000) ∧
      (getRankBadge q = some .silver ↔ 1000 < q ∧ q ≤ 5000) ∧
      (getRankBadge q = some .bronze ↔ 5000 < q ∧ q ≤ 20000) ∧
      (getRankBadge q = none ↔ 20000 < q)) ∧
    getRankBadge 950 = some .gold ∧ getRankBadge 1500 = some .silver ∧
    getRankBadge 25000 = none := by
  refine ⟨fun _ _ _ _ => rfl, ?_, ?_, fun _ _ _ => ⟨rfl, rfl⟩, ?_, ?_, ?_, ?_⟩
  · intro rules col q h
    simp [cellView, h]
  · intro rules col q h
    simp [cellView, h]
  · intro q
    simp only [getRankBadge]
    split_ifs with h1 h2 h3 <;>
      refine ⟨⟨?_, ?_⟩, ⟨?_, ?_⟩, ⟨?_, ?_⟩, ⟨?_, ?_⟩⟩ <;>
      intro h <;>
      try obtain ⟨hA, hB⟩ := h
    all_goals
      first
        | rfl
        | (constructor <;> linarith)
        | linarith
  · norm_num [getRankBadge]
  · norm_num [getRankBadge]
  · norm_num [getRankBadge]

/-- C7: the exported CSV is the header row (headerName values joined by
commas) followed by one row per currently filtered-and-sorted table row (not
the original row set), each cell being the row's value for the column's
field wrapped in double quotes with internal quotes doubled, cells joined by
commas and rows joined by newlines; the cell value `He said "hi", ok`
serializes as `"He said ""hi"", ok"`. -/
theorem c7_csv_export :
    (∀ (columns : List Column) (st : SortState) (query : String)
        (rows : List Row),
      exportCsv columns st query rows =
        jsJoin "\n" (jsJoin "," (columns.map (·.headerName)) ::
          (filteredRows st query rows).map (csvRow columns))) ∧
    (∀ (columns : List Column) (row : Row),
      csvRow columns row =
        jsJoin "," (columns.map (fun col =>
          "\"" ++ csvEscapeQuotes (jsValueToString (rowGet row col.field)) ++
            "\""))) ∧
    csvEscapeQuotes "He said \"hi\", ok" = "He said \"\"hi\"\", ok" ∧
    csvCell [("a", .str "He said \"hi\", ok")]
        { field := "a", headerName := "A", sortable := true, type := .str } =
      "\"He said \"\"hi\"\", ok\"" ∧
    exportCsv [{ field := "b", headerName := "B", sortable := true, type := .str }]
        ⟨"", .asc⟩ "cs"
        [[("b", .str "CS Computers")], [("b", .str "ME Mechanical")]] =
      "B\n\"CS Computers\"" := by
  refine ⟨fun _ _ _ _ => rfl, fun _ _ => rfl, ?_, ?_, ?_⟩
  · decide
  · decide
  · decide

/-- C6: clicking the currently sorted column's header toggles the direction
between ascending and descending, clicking a different column's header
selects it ascending; the comparator uses numeric difference when both
compared values are numbers and otherwise compares the lower-cased
stringified values lexicographically (swapping arguments for descending);
and rows with field values 8603, 290, 462 sorted ascending come out as
290, 462, 8603. -/
theorem c6_sort_toggle_and_comparator :
    (∀ (st : SortState) (f : String), st.sortColumn = f →
      handleSort st f =
        ⟨f, if st.sortDirection = .asc then .desc else .asc⟩) ∧
    (∀ (st : SortState) (f : String), st.sortColumn ≠ f →
      handleSort st f = ⟨f, .asc⟩) ∧
    (∀ (st : SortState) (a b : Row) (qa qb : ℚ),
      rowGet a st.sortColumn = some (.num qa) →
      rowGet b st.sortColumn = some (.num qb) →
      rowCompare st a b =
        (if st.sortDirection = .asc then qa - qb else qb - qa)) ∧
    (∀ (st : SortState) (a b : Row),
      (match rowGet a st.sortColumn, rowGet b st.sortColumn with
        | some (.num _), some (.num _) => False
        | _, _ => True) →
      rowCompare st a b =
        (if st.sortDirection = .asc then
          localeCompareQ (jsToLower (jsValueToString (rowGet a st.sortColumn)))
            (jsToLower (jsValueToString (rowGet b st.sortColumn)))
        else
          localeCompareQ (jsToLower (jsValueToString (rowGet b st.sortColumn)))
            (jsToLower (jsValueToString (rowGet a st.sortColumn))))) ∧
    (∀ s t : String, (localeCompareQ s t = 0 ↔ s = t) ∧
      (localeCompareQ s t < 0 ↔ List.Lex (· < ·) s.data t.data)) ∧
    sortedRows ⟨"rank", .asc⟩
        [[("rank", .num 8603)], [("rank", .num 290)], [("rank", .num 462)]] =
      [[("rank", .num 290)], [("rank", .num 462)], [("rank", .num 8603)]] := by
  refine ⟨?_, ?_, ?_, ?_, ?_, ?_⟩
  · intro st f h
    subst h
    simp [handleSort]
  · intro st f h
    simp [handleSort, h]
  · intro st a b qa qb ha hb
    simp [rowCompare, ha, hb]
  · intro st a b hm
    revert hm
    rcases hA : rowGet a st.sortColumn with _ | v
    · rcases hB : rowGet b st.sortColumn with _ | w
      · intro hm; simp [rowCompare, hA, hB]
      · rcases w with s | q <;> intro hm <;> simp [rowCompare, hA, hB]
    · rcases v with s | q
      · rcases hB : rowGet b st.sortColumn with _ | w
        · intro hm; simp [rowCompare, hA, hB]
        · rcases w with s2 | q2 <;> intro hm <;> simp [rowCompare, hA, hB]
      · rcases hB : rowGet b st.sortColumn with _ | w
        · intro hm; simp [rowCompare, hA, hB]
        · rcases w with s2 | q2
          · intro hm; simp [rowCompare, hA, hB]
          · intro hm; exact hm.elim
  · intro s t
    exact ⟨localeCompareQ_eq_zero_iff s t, localeCompareQ_neg_iff s t⟩
  · norm_num [sortedRows, stableSort, stableInsert, rowCompare, rowGet,
      List.find?]
    decide

/-- Witness for C6: the theorem's toggle and comparator parts applied at
concrete states and rows. -/
theorem c6_sort_witness :
    handleSort ⟨"rank", .asc⟩ "rank" = ⟨"rank", .desc⟩ ∧
    handleSort ⟨"rank", .desc⟩ "cutoff" = ⟨"cutoff", .asc⟩ ∧
    rowCompare ⟨"rank", .asc⟩ [("rank", .num 8603)] [("rank", .num 290)] =
      8603 - 290 := by
  refine ⟨?_, ?_, ?_⟩
  · simpa using c6_sort_toggle_and_comparator.1 ⟨"rank", .asc⟩ "rank" rfl
  · exact c6_sort_toggle_and_comparator.2.1 ⟨"rank", .desc⟩ "cutoff" (by decide)
  · simpa using
      c6_sort_toggle_and_comparator.2.2.1 ⟨"rank", .asc⟩
        [("rank", .num 8603)] [("rank", .num 290)] 8603 290 rfl rfl

/-- Witness for C8: the badge part of the theorem applied to a concrete
`cutoff_rank` column and the value 950. -/
theorem c8_rank_badges_witness :
    (cellView []
        { field := "cutoff_rank", headerName := "Cutoff Rank", sortable := true,
          type := ColType.num } (some (JsValue.num 950))).2 = some Badge.gold :=
  (c8_rank_badges.2.1 []
      { field := "cutoff_rank", headerName := "Cutoff Rank", sortable := true,
        type := ColType.num } 950 (by decide)).trans
    c8_rank_badges.2.2.2.2.2.1

/-- Counterexample to C5 as stated: on the table-free input `"  hello  "`
the single returned text part carries the original content, not the trimmed
input. -/
theorem c5_counterexample_untrimmed :
    ((jsSplit "  hello  " '\n').all fun l => !jsStartsWith (jsTrim l) "|") = true ∧
    splitContentWithTables "  hello  " =
      [{ type := .text, content := "  hello  " }] ∧
    jsTrim "  hello  " = "hello" ∧
    ([{ type := PartType.text, content := "  hello  " }] : List ContentPart) ≠
      [{ type := .text, content := "hello" }] := by
  refine ⟨rfl, rfl, rfl, ?_⟩
  decide

/-- C5 (amended): for every input in which no line's trimmed form starts
with a pipe, `splitContentWithTables` returns a single part of type `text`
whose content equals the input itself (untrimmed) — unless the whole input
trims to the empty string, in which case the part is dropped and the result
is empty. -/
theorem c5_no_table_single_part (content : String)
    (h : ((jsSplit content '\n').all fun l => !jsStartsWith (jsTrim l) "|") = true) :
    splitContentWithTables content =
      if (jsTrim content).data.isEmpty then []
      else [{ type := .text, content := content }] := by
  have hlines : ∀ l ∈ jsSplit content '\n', jsStartsWith (jsTrim l) "|" = false := by
    intro l hl
    simpa using List.all_eq_true.mp h l hl
  unfold splitContentWithTables
  rcases hsp : jsSplit content '\n' with _ | ⟨l, ls⟩
  · exact absurd (List.map_eq_nil_iff.mp hsp) (jsSplitCharAux_ne_nil _ _)
  · rw [hsp] at hlines
    have hstep : splitStep ⟨[], none, false⟩ l =
        ⟨[], some ⟨.text, [l]⟩, false⟩ := by
      simp [splitStep, hlines l (by simp)]
    have hj : jsJoin "\n" (l :: ls) = content := by
      rw [← hsp]; exact jsJoin_jsSplit content
    dsimp only
    rw [List.foldl_cons, hstep,
      splitStep_text_fold ls (fun x hx => hlines x (by simp [hx])) [] .text [l]]
    simp only [flushCurrent, List.nil_append, List.singleton_append, hj]
    by_cases hc : (jsTrim content).data.isEmpty <;> simp [List.filter, hc]

/-- Witness for C5: the amended theorem applied to a two-line table-free
input and to a whitespace-only input. -/
theorem c5_no_table_witness :
    splitContentWithTables "ab\ncd" = [{ type := .text, content := "ab\ncd" }] ∧
    splitContentWithTables "   " = [] :=
  ⟨(c5_no_table_single_part "ab\ncd" (by decide)).trans (by decide),
   (c5_no_table_single_part "   " (by decide)).trans (by decide)⟩

/-- C3: whenever `parseMarkdownTable` succeeds, every key of every returned
row is the field of one of the returned columns, and the stored value is
`mkCellValue` of that column and some cell: a number exactly when the column
is typed number and the comma-stripped trimmed cell parses as a float, and
the raw trimmed string otherwise. -/
theorem c3_row_values_from_columns :
    (∀ (content : String) (t : ParsedTable),
      parseMarkdownTable content = some t →
      ∀ row ∈ t.rows, ∀ p ∈ row,
        ∃ col ∈ t.columns, p.1 = col.field ∧
          ∃ cell, p.2 = mkCellValue col cell) ∧
    (∀ (col : Column) (cell : String) (q : ℚ),
      mkCellValue col cell = .num q →
      col.type = .num ∧ jsParseFloat (stripCommas cell) = some q) ∧
    (∀ (col : Column) (cell : String),
      (col.type = .num → jsParseFloat (stripCommas cell) = none →
        mkCellValue col cell = .str cell) ∧
      (col.type = .str → mkCellValue col cell = .str cell)) := by
  refine ⟨?_, ?_, ?_⟩
  · intro content t h row hrow p hp
    obtain ⟨hcols, hrows⟩ := parse_some_elim content t h
    rw [hrows] at hrow
    rcases List.mem_map.mp hrow with ⟨l, hl, hle⟩
    subst hle
    exact rowOfCellsAux_spec t.columns (cellsOfLine l) 0 [] (by simp) p hp
  · intro col cell q h
    unfold mkCellValue at h
    split at h
    · rename_i htype
      split at h
      · rename_i q2 hparse
        simp only [JsValue.num.injEq] at h
        subst h
        exact ⟨htype, hparse⟩
      · exact absurd h (by simp)
    · exact absurd h (by simp)
  · intro col cell
    constructor
    · intro htype hparse
      simp [mkCellValue, htype, hparse]
    · intro htype
      simp [mkCellValue, htype]

/-- Witness for C3: the first part of the theorem applied to a concrete
table whose numeric-column cell does not parse as a float. -/
theorem c3_row_values_witness :
    ∃ col ∈ ({ title := none,
               columns :=
                [{ field := "a", headerName := "A", sortable := true,
                   type := ColType.str },
                 { field := "rank", headerName := "Rank", sortable := true,
                   type := ColType.num }],
               rows :=
                [[("a", JsValue.str "x"),
                  ("rank", JsValue.str "n/a")]] } : ParsedTable).columns,
      (("rank", JsValue.str "n/a") : String × JsValue).1 = col.field ∧
        ∃ cell, (("rank", JsValue.str "n/a") : String × JsValue).2 =
          mkCellValue col cell :=
  c3_row_values_from_columns.1 "| A | Rank |\n|---|---|\n| x | n/a |" _
    (by decide) [("a", JsValue.str "x"), ("rank", JsValue.str "n/a")]
    (by decide) ("rank", JsValue.str "n/a") (by decide)

/-- Counterexample to C4 as stated: the parser drops every empty cell, not
only empty edge cells.  On the data line `| x |  | z |` the claimed cell list
is `["x", "", "z"]` but the code produces `["x", "z"]`, so in the parsed
table the value `z` lands under column `b` and field `c` is absent, where
the claim predicts `b` empty and `c` holding `z`. -/
theorem c4_counterexample_middle_empty :
    specCellsOfLine "| x |  | z |" = ["x", "", "z"] ∧
    cellsOfLine "| x |  | z |" = ["x", "z"] ∧
    cellsOfLine "| x |  | z |" ≠ specCellsOfLine "| x |  | z |" ∧
    parseMarkdownTable "| A | B | C |\n|---|---|---|\n| x |  | z |" =
      some { title := none,
             columns :=
              [{ field := "a", headerName := "A", sortable := true,
                 type := ColType.str },
               { field := "b", headerName := "B", sortable := true,
                 type := ColType.str },
               { field := "c", headerName := "C", sortable := true,
                 type := ColType.str }],
             rows := [[("a", JsValue.str "x"), ("b", JsValue.str "z")]] } ∧
    rowGet [("a", JsValue.str "x"), ("b", JsValue.str "z")] "b" =
      some (JsValue.str "z") ∧
    rowGet [("a", JsValue.str "x"), ("b", JsValue.str "z")] "c" = none := by
  refine ⟨rfl, rfl, by decide, rfl, rfl, rfl⟩

/-- C4 (amended): for every data-row line the cells are obtained by
splitting on pipes, trimming, and dropping all empty cells (not only edge
ones); when the columns' fields are pairwise distinct the row is the
positional zip of cells against columns, cells beyond the column count are
dropped, and a column beyond the cell count has its field absent from the
row mapping rather than zero-filled. -/
theorem c4_row_zip_semantics :
    (∀ (content : String) (t : ParsedTable),
      parseMarkdownTable content = some t →
      (t.columns.map Column.field).Nodup →
      t.rows = ((tableLinesOf content).drop 2).map
        (fun l => ((cellsOfLine l).zip t.columns).map
          (fun p => (p.2.field, mkCellValue p.2 p.1)))) ∧
    (∀ (cols : List Column) (cells : List String) (col : Column),
      (cols.map Column.field).Nodup → col ∈ cols.drop cells.length →
      rowGet (rowOfCells cols cells) col.field = none) := by
  constructor
  · intro content t h hnd
    obtain ⟨hcols, hrows⟩ := parse_some_elim content t h
    rw [hrows]
    refine List.map_congr_left ?_
    intro l hl
    exact rowOfCells_zip t.columns (cellsOfLine l) hnd
  · intro cols cells col hnd hmem
    exact rowGet_rowOfCells_none cols cells col hnd hmem

/-- Witness for C4: the amended theorem applied to a table with an extra
cell (dropped) and to a row with a missing cell (field absent). -/
theorem c4_row_zip_witness :
    ([[("a", JsValue.str "x"), ("b", JsValue.str "y")]] : List Row) =
      ((tableLinesOf "| A | B |\n|---|---|\n| x | y | z |").drop 2).map
        (fun l => ((cellsOfLine l).zip
            [{ field := "a", headerName := "A", sortable := true,
               type := ColType.str },
             { field := "b", headerName := "B", sortable := true,
               type := ColType.str }]).map
          (fun p => (p.2.field, mkCellValue p.2 p.1))) ∧
    rowGet (rowOfCells
        [{ field := "a", headerName := "A", sortable := true,
           type := ColType.str },
         { field := "b", headerName := "B", sortable := true,
           type := ColType.str }] ["x"]) "b" = none := by
  constructor
  · exact c4_row_zip_semantics.1 "| A | B |\n|---|---|\n| x | y | z |"
      { title := none,
        columns :=
          [{ field := "a", headerName := "A", sortable := true,
             type := ColType.str },
           { field := "b", headerName := "B", sortable := true,
             type := ColType.str }],
        rows := [[("a", JsValue.str "x"), ("b", JsValue.str "y")]] }
      (by decide) (by decide)
  · exact c4_row_zip_semantics.2
      [{ field := "a", headerName := "A", sortable := true,
         type := ColType.str },
       { field := "b", headerName := "B", sortable := true,
         type := ColType.str }] ["x"]
      { field := "b", headerName := "B", sortable := true, type := ColType.str }
      (by decide) (by decide)

end CollegePredictor
